import Mathlib

/-
Verification of the core pipeline of ReadAndSort (src/main.rs):
classification data, the type-filter engine, the sibling sorter, the
depth-bounded walker, windowed content extraction and match highlighting.
Rust functions are shallowly embedded as Lean functions over explicit
records standing for what the filesystem reports about a path.
-/

namespace RS

/-- Sort keys, from the SortField enum in src/main.rs. -/
inductive SortField where
  | Name
  | Date
  | Size
  | Type
  | Ext
deriving DecidableEq

/-- Sort directions, from the SortDirection enum in src/main.rs. -/
inductive SortDirection where
  | Asc
  | Desc
deriving DecidableEq

/-- The static extension-group table built by file_type_groups in src/main.rs,
modelled as an association list (the Rust HashMap has pairwise distinct keys). -/
def file_type_groups : List (String × List String) :=
  [("web", ["html", "htm", "css", "scss", "less", "js", "jsx", "ts", "tsx"]),
   ("docs", ["md", "txt", "pdf", "doc", "docx", "odt", "rtf"]),
   ("images", ["jpg", "jpeg", "png", "gif", "svg", "webp", "bmp"]),
   ("code", ["py", "java", "cpp", "c", "h", "hpp", "cs", "go", "rs", "php", "rb", "pl", "scala", "kt", "swift"]),
   ("config", ["json", "yaml", "yml", "toml", "ini", "conf", "xml"]),
   ("data", ["csv", "sql", "db", "sqlite"]),
   ("script", ["sh", "bash", "zsh", "fish", "ps1", "bat", "cmd"])]

/-- A successful std::fs::Metadata read: the fields of it that src/main.rs
inspects (is_dir, len, modified, the unix FileTypeExt predicates, and the
permission bits used via PermissionsExt::mode). -/
structure Metadata where
  is_dir : Bool
  len : Nat
  modified : Option Nat
  is_symlink : Bool
  is_socket : Bool
  is_fifo : Bool
  is_block_device : Bool
  is_char_device : Bool
  mode : Nat
deriving DecidableEq

/-- What the filesystem reports about one path: its file name (file_name,
with the unwrap_or default already applied), its extension, the result of
path.metadata() (none when the read fails), and the MIME string returned by
tree_magic_mini::from_filepath (none when sniffing fails). -/
structure PathInfo where
  name : String
  ext : Option String
  metadata : Option Metadata
  sniff : Option String
deriving DecidableEq

/-- is_executable_file from src/main.rs: any execute permission bit set;
false when the metadata read fails. -/
def is_executable_file (p : PathInfo) : Bool :=
  match p.metadata with
  | some md => (md.mode &&& 0o111) != 0
  | none => false

/-- Rust str::starts_with, on the character lists of the strings (on the
well-formed UTF-8 strings involved this agrees with the byte view). -/
def str_starts_with (s pre : String) : Bool :=
  pre.toList.isPrefixOf s.toList

/-- Rust's prefix-stripping slice of a string literal pattern, on the
character list (the stripped patterns are ASCII, so byte and char counts
agree). -/
def str_drop (s : String) (n : Nat) : String :=
  String.mk (s.toList.drop n)

/-- is_text_file from src/main.rs: the sniffed MIME (defaulting to
application/octet-stream) starts with "text/". -/
def is_text_file (p : PathInfo) : Bool :=
  str_starts_with (p.sniff.getD "application/octet-stream") "text/"

/-- Substring containment, modelling Rust str::contains with a literal
pattern: some suffix of the haystack starts with the needle. -/
def str_contains (s sub : String) : Bool :=
  (List.range (s.toList.length + 1)).any (fun i => sub.toList.isPrefixOf (s.toList.drop i))

/-- One iteration of the filter loop of matches_type_filter in src/main.rs:
whether a single predicate string accepts the entry, given the metadata
that the enclosing function already read successfully. -/
def matches_one (p : PathInfo) (is_dir : Bool) (groups : List (String × List String))
    (md : Metadata) (filter : String) : Bool :=
  let name := p.name
  let size := md.len
  let is_symlink := md.is_symlink
  let is_socket := md.is_socket
  let is_pipe := md.is_fifo
  let is_device := md.is_block_device || md.is_char_device
  let is_exec := !is_dir && is_executable_file p
  let mime := p.sniff.getD "application/octet-stream"
  let is_text := !is_dir && str_starts_with mime "text/"
  if str_starts_with filter "ext:" then
    let ext_req := str_drop filter 4
    let ext := p.ext.getD ""
    ext == ext_req
  else if str_starts_with filter "group:" then
    let group := str_drop filter 6
    match groups.lookup group with
    | some exts => exts.contains (p.ext.getD "")
    | none => false
  else
    match filter with
    | "binary" => !is_dir && !is_text
    | "text" => !is_dir && is_text
    | "dir" => is_dir
    | "hidden" => str_starts_with name "."
    | "empty" => !is_dir && size == 0
    | "all" => true
    | "socket" => is_socket
    | "pipe" => is_pipe
    | "symlink" => is_symlink
    | "device" => is_device
    | "executable" => is_exec
    | "archive" => str_contains mime "zip" || str_contains mime "x-tar" || str_contains mime "x-gzip"
    | _ => false

/-- The filter loop of matches_type_filter: return true on the first
predicate that matches, false when the list is exhausted. -/
def filters_loop (p : PathInfo) (is_dir : Bool) (groups : List (String × List String))
    (md : Metadata) : List String → Bool
  | [] => false
  | f :: rest =>
    if matches_one p is_dir groups md f then true else filters_loop p is_dir groups md rest

/-- matches_type_filter from src/main.rs: empty filter list passes
everything; otherwise a failed metadata read rejects the entry, and a
successful one runs the predicate loop. -/
def matches_type_filter (p : PathInfo) (filters : List String) (is_dir : Bool)
    (groups : List (String × List String)) : Bool :=
  if filters.isEmpty then true
  else
    match p.metadata with
    | none => false
    | some md => filters_loop p is_dir groups md filters

/-- Metadata of an ordinary small text file, used as a concrete test entry. -/
def mdFile : Metadata :=
  { is_dir := false, len := 5, modified := some 100, is_symlink := false,
    is_socket := false, is_fifo := false, is_block_device := false,
    is_char_device := false, mode := 0o644 }

/-- A concrete readable text-file path. -/
def pTxt : PathInfo :=
  { name := "b.txt", ext := some "txt", metadata := some mdFile, sniff := some "text/plain" }

/-- A concrete path whose metadata read fails. -/
def pNoMeta : PathInfo :=
  { name := "ghost", ext := none, metadata := none, sniff := none }

theorem filters_loop_eq_any (p : PathInfo) (is_dir : Bool)
    (groups : List (String × List String)) (md : Metadata) (fs : List String) :
    filters_loop p is_dir groups md fs = fs.any (matches_one p is_dir groups md) := by
  induction fs with
  | nil => rfl
  | cons f rest ih =>
    simp only [filters_loop, List.any_cons]
    by_cases h : matches_one p is_dir groups md f = true
    · simp [h]
    · simp only [Bool.not_eq_true] at h
      simp [h, ih]

/-- C7: an empty filter list is a pass-through: matches_type_filter returns
true for every entry. -/
theorem c7_empty_filters_pass_through (p : PathInfo) (is_dir : Bool)
    (groups : List (String × List String)) :
    matches_type_filter p [] is_dir groups = true := rfl

/-- C4 counterexample: with the empty filter list the function returns true
while the empty disjunction is false, so the claimed equality fails at the
concrete entry pTxt. -/
theorem c4_empty_list_breaks_or_semantics :
    matches_type_filter pTxt [] false file_type_groups ≠
      ([] : List String).any (fun f => matches_type_filter pTxt [f] false file_type_groups) := by
  decide

/-- C4 (amended to non-empty filter lists): for every entry and every
non-empty predicate list, matches_type_filter equals the disjunction of the
singleton-list evaluations of its members. -/
theorem c4_or_semantics (p : PathInfo) (fs : List String) (is_dir : Bool)
    (groups : List (String × List String)) (h : fs ≠ []) :
    matches_type_filter p fs is_dir groups =
      fs.any (fun f => matches_type_filter p [f] is_dir groups) := by
  cases fs with
  | nil => exact absurd rfl h
  | cons f0 rest =>
    cases hm : p.metadata with
    | none =>
      have hs : ∀ f : String, matches_type_filter p [f] is_dir groups = false := by
        intro f
        simp [matches_type_filter, hm]
      have hl : matches_type_filter p (f0 :: rest) is_dir groups = false := by
        simp [matches_type_filter, hm]
      rw [hl]
      simp [hs]
    | some md =>
      have hs : ∀ f : String, matches_type_filter p [f] is_dir groups =
          matches_one p is_dir groups md f := by
        intro f
        simp [matches_type_filter, hm, filters_loop]
      have hl : matches_type_filter p (f0 :: rest) is_dir groups =
          filters_loop p is_dir groups md (f0 :: rest) := by
        simp [matches_type_filter, hm]
      rw [hl, filters_loop_eq_any]
      simp only [hs]

/-- C4 witness: the amended OR-semantics theorem applied at a concrete
entry and a concrete two-element filter list. -/
theorem c4_or_semantics_witness :
    matches_type_filter pTxt ["ext:py", "text"] false file_type_groups =
      (["ext:py", "text"]).any (fun f => matches_type_filter pTxt [f] false file_type_groups) :=
  c4_or_semantics pTxt ["ext:py", "text"] false file_type_groups (by decide)

/-- C10: with a non-empty filter list, a failed metadata read makes
matches_type_filter return false before any predicate (even the
unconditional all keyword) is consulted. -/
theorem c10_metadata_failure_rejects (p : PathInfo) (fs : List String) (is_dir : Bool)
    (groups : List (String × List String)) (hne : fs ≠ []) (hm : p.metadata = none) :
    matches_type_filter p fs is_dir groups = false := by
  have hne' : fs.isEmpty = false := by
    cases fs with
    | nil => exact absurd rfl hne
    | cons a l => rfl
  simp [matches_type_filter, hne', hm]

/-- C10 witness: the metadata-failure rejection applied to a concrete
entry with the filter list consisting of the all keyword. -/
theorem c10_metadata_failure_rejects_witness :
    matches_type_filter pNoMeta ["all"] false file_type_groups = false :=
  c10_metadata_failure_rejects pNoMeta ["all"] false file_type_groups (by decide) rfl

/-- Ordering on Bool as in Rust's Ord for bool: false is less than true. -/
def cmpBool : Bool → Bool → Ordering
  | false, false => Ordering.eq
  | false, true => Ordering.lt
  | true, false => Ordering.gt
  | true, true => Ordering.eq

/-- Ordering on Option as in Rust's Ord for Option: None is less than Some. -/
def cmpOpt (cmp : α → α → Ordering) : Option α → Option α → Ordering
  | none, none => Ordering.eq
  | none, some _ => Ordering.lt
  | some _, none => Ordering.gt
  | some a, some b => cmp a b

/-- The DirEntryExt record collected per child in print_tree (src/main.rs);
name stands for path.file_name(), which is present for every entry produced
by read_dir, and filetype_desc is the sniffed MIME description. -/
structure DirEntryExt where
  name : String
  is_dir : Bool
  size : Nat
  modified : Option Nat
  ext : Option String
  filetype_desc : String
deriving DecidableEq

/-- The comparator closure inside sort_entries (src/main.rs): an is_dir
comparison first when dirs_first is set, then the comparison selected by the
sort key (unknown modification times fall back to the unix epoch, modelled
as 0). -/
def entry_cmp (sort_by : SortField) (dirs_first : Bool) (a b : DirEntryExt) : Ordering :=
  let dir_cmp := if dirs_first then cmpBool a.is_dir b.is_dir else Ordering.eq
  if dir_cmp != Ordering.eq then dir_cmp
  else
    match sort_by with
    | SortField.Name => compare a.name b.name
    | SortField.Date => compare (a.modified.getD 0) (b.modified.getD 0)
    | SortField.Size => compare a.size b.size
    | SortField.Type => compare a.filetype_desc b.filetype_desc
    | SortField.Ext => cmpOpt compare a.ext b.ext

/-- Insert an element into an already sorted list, before the first
element it may precede; together with stable_sort this is the classic
stable insertion sort. -/
def stable_insert (le : α → α → Bool) (a : α) : List α → List α
  | [] => [a]
  | b :: l => if le a b then a :: b :: l else b :: stable_insert le a l

/-- Stable sort by a boolean precedence relation. Rust's slice sort_by is
a stable sort by the comparator; with the total preorder
le x y := (cmp x y != Greater) the stable sort of a list is unique, so this
structurally recursive stable sort models sort_by faithfully. -/
def stable_sort (le : α → α → Bool) : List α → List α
  | [] => []
  | a :: l => stable_insert le a (stable_sort le l)

/-- sort_entries generalized over the element type through a key
projection, so the same definition sorts the bare records and the
record-subtree pairs used by the walker. An element precedes another
exactly when the comparator does not return Greater; after sorting, Desc
reverses the whole sequence, as in src/main.rs. -/
def sort_entries_with (key : α → DirEntryExt) (sort_by : SortField)
    (direction : SortDirection) (dirs_first : Bool) (entries : List α) : List α :=
  let sorted := stable_sort
    (fun a b => entry_cmp sort_by dirs_first (key a) (key b) != Ordering.gt) entries
  match direction with
  | SortDirection.Asc => sorted
  | SortDirection.Desc => sorted.reverse

/-- sort_entries from src/main.rs, on the entry records themselves. -/
def sort_entries (entries : List DirEntryExt) (sort_by : SortField)
    (direction : SortDirection) (dirs_first : Bool) : List DirEntryExt :=
  sort_entries_with id sort_by direction dirs_first entries

/-- A concrete directory entry named a. -/
def dirA : DirEntryExt :=
  { name := "a", is_dir := true, size := 0, modified := none, ext := none,
    filetype_desc := "inode/directory" }

/-- A concrete file entry named b. -/
def fileB : DirEntryExt :=
  { name := "b", is_dir := false, size := 5, modified := none, ext := some "txt",
    filetype_desc := "text/plain" }

/-- C1: sorting a directory and a file with dirs_first set and direction
Asc puts the file first, because the comparator orders is_dir ascending
(false before true); the directory therefore does not precede the
non-directory, contradicting the claim (and the dirs-first flag's own help
text) at this concrete input. -/
theorem c1_dirs_first_asc_puts_file_first :
    sort_entries [dirA, fileB] SortField.Name SortDirection.Asc true = [fileB, dirA] := by
  decide

/-- One observable output event of filter_and_print_content in
src/main.rs: a printed source line (its 1-based number and its is-match
marker), an elision separator, or the no-matches marker. -/
inductive OutputEvent where
  | line (num : Nat) (is_match : Bool)
  | separator
  | noMatches
deriving DecidableEq

/-- The match-collection loop of filter_and_print_content: the 1-based
numbers of the lines the pattern matches, in order. The regex is
abstracted to its boolean line test is_match. -/
def match_line_nums (lines : List String) (p : String → Bool) : List Nat :=
  lines.enum.filterMap (fun ie => if p ie.2 then some (ie.1 + 1) else none)

/-- The windowed display loop of filter_and_print_content: for each match,
a window clamped to [1, total_lines], a separator when the window starts
more than one line past the previous window's end, then the window's
lines, the match line marked. -/
def window_loop (total_lines context : Nat) : List Nat → Nat → List OutputEvent
  | [], _ => []
  | m :: rest, prev_end =>
    let start := if m > context then m - context else 1
    let stop := min (m + context) total_lines
    (if start > prev_end + 1 then [OutputEvent.separator] else []) ++
      (List.range' start (stop + 1 - start)).map (fun i => OutputEvent.line i (i == m)) ++
      window_loop total_lines context rest stop

/-- filter_and_print_content from src/main.rs, reduced to its observable
events: no pattern prints every line unmarked; with a pattern and no
matching line only the no-matches marker is printed; whole-file mode
prints every line with its match marker; otherwise the windowed loop
runs over the collected match line numbers with prev_end starting at 0. -/
def filter_and_print_content (lines : List String) (pattern : Option (String → Bool))
    (context : Nat) (whole_file : Bool) : List OutputEvent :=
  let total_lines := lines.length
  match pattern with
  | none => lines.enum.map (fun ie => OutputEvent.line (ie.1 + 1) false)
  | some p =>
    let ms := match_line_nums lines p
    if ms.isEmpty then [OutputEvent.noMatches]
    else if whole_file then
      lines.enum.map (fun ie => OutputEvent.line (ie.1 + 1) (p ie.2))
    else
      window_loop total_lines context ms 0

/-- Number of Line events in an event list. -/
def num_line_events (evs : List OutputEvent) : Nat :=
  evs.countP (fun e => match e with | OutputEvent.line _ _ => true | _ => false)

/-- C2: with context 2 and matches at lines 3 and 4 of a six-line file the
code does not merge the touching windows: it emits lines 1-5 for the first
match and then lines 2-6 for the second, so lines 2-5 are each produced
twice instead of once. -/
theorem c2_overlapping_windows_reemit_lines :
    filter_and_print_content ["a", "b", "x", "x", "c", "d"] (some (fun s => s == "x")) 2 false =
      [OutputEvent.line 1 false, OutputEvent.line 2 false, OutputEvent.line 3 true,
       OutputEvent.line 4 false, OutputEvent.line 5 false,
       OutputEvent.line 2 false, OutputEvent.line 3 false, OutputEvent.line 4 true,
       OutputEvent.line 5 false, OutputEvent.line 6 false] := by
  decide

/-- C3 counterexample: whole-file mode with a pattern that matches no line
of a two-line file prints only the no-matches marker and zero Line events,
not total_lines of them. -/
theorem c3_zero_matches_emits_no_lines :
    filter_and_print_content ["a", "b"] (some (fun s => s == "z")) 0 true =
        [OutputEvent.noMatches] ∧
      num_line_events (filter_and_print_content ["a", "b"] (some (fun s => s == "z")) 0 true) ≠ 2 := by
  decide

/-- C3 (amended): whenever at least one line matches the pattern,
whole-file mode emits exactly total_lines Line events. -/
theorem c3_whole_file_emits_every_line (lines : List String) (p : String → Bool)
    (context : Nat) (h : (match_line_nums lines p).isEmpty = false) :
    num_line_events (filter_and_print_content lines (some p) context true) = lines.length := by
  simp only [filter_and_print_content, h, Bool.false_eq_true, if_false, if_true,
    num_line_events, List.countP_map]
  rw [List.countP_eq_length.mpr]
  · exact List.enum_length
  · intro a _
    rfl

/-- C3 witness: the amended whole-file theorem applied to a concrete
two-line file with one matching line. -/
theorem c3_whole_file_emits_every_line_witness :
    num_line_events (filter_and_print_content ["x", "y"] (some (fun s => s == "x")) 0 true) = 2 :=
  c3_whole_file_emits_every_line ["x", "y"] (fun s => s == "x") 0 (by decide)

/-- Ten concrete lines whose third and seventh entries match the pattern
used in the context-zero example. -/
def c5lines : List String := ["a", "b", "x", "c", "d", "e", "x", "f", "g", "h"]

/-- C5 counterexample: at a concrete ten-line file with matches on lines 3
and 7 and context 0, the windowed output contains two elision separators,
not exactly one: prev_end starts at 0, so the elided lines 1-2 before the
first window also produce a separator. -/
theorem c5_two_separators_not_one :
    (filter_and_print_content c5lines (some (fun s => s == "x")) 0 false).countP
      (fun e => e == OutputEvent.separator) ≠ 1 := by
  decide

/-- C5 (amended): for every ten-line file whose pattern matches exactly
lines 3 and 7, windowed extraction with context 0 emits a separator for
the elided lines before the first window, the single-line window at line
3, a separator for the gap, and the single-line window at line 7. -/
theorem c5_windows_and_separators (lines : List String) (p : String → Bool)
    (hm : match_line_nums lines p = [3, 7]) (hl : lines.length = 10) :
    filter_and_print_content lines (some p) 0 false =
      [OutputEvent.separator, OutputEvent.line 3 true,
       OutputEvent.separator, OutputEvent.line 7 true] := by
  simp only [filter_and_print_content, hm, hl, List.isEmpty_cons, Bool.false_eq_true,
    if_false]
  decide

/-- C5 witness: the amended context-zero theorem applied to the concrete
ten-line file c5lines. -/
theorem c5_windows_and_separators_witness :
    filter_and_print_content c5lines (some (fun s => s == "x")) 0 false =
      [OutputEvent.separator, OutputEvent.line 3 true,
       OutputEvent.separator, OutputEvent.line 7 true] :=
  c5_windows_and_separators c5lines (fun s => s == "x") (by decide) (by decide)

/-- The highlighting loop of format_line (src/main.rs), as the list of
output segments it concatenates: for each match span (mat.start, mat.end)
the unstyled slice line[last_end..start] and the styled slice
line[start..end], then the unstyled tail line[last_end..]. A segment is
its text paired with whether it was styled. -/
def highlight_segments (line : List Char) : List (Nat × Nat) → Nat → List (List Char × Bool)
  | [], last_end => [(line.drop last_end, false)]
  | (s, e) :: rest, last_end =>
    ((line.drop last_end).take (s - last_end), false) ::
      ((line.drop s).take (e - s), true) ::
      highlight_segments line rest e

/-- Remove the styling from the segments: concatenate the raw texts. -/
def strip_styling (segs : List (List Char × Bool)) : List Char :=
  (segs.map Prod.fst).flatten

/-- The guarantees regex find_iter gives about its match spans: each span
starts no earlier than the scan position left by the previous one
(occurrences do not overlap), ends no earlier than it starts, and ends
within the line. -/
def spans_chained (len : Nat) : Nat → List (Nat × Nat) → Bool
  | _, [] => true
  | last_end, (s, e) :: rest =>
    Nat.ble last_end s && Nat.ble s e && Nat.ble e len && spans_chained len e rest

theorem take_drop_append_drop {α : Type _} (l : List α) {a b : Nat} (h : a ≤ b) :
    (l.drop a).take (b - a) ++ l.drop b = l.drop a := by
  have h2 : (l.drop a).drop (b - a) = l.drop b := by
    rw [List.drop_drop]
    congr 1
    omega
  conv_rhs => rw [← List.take_append_drop (b - a) (l.drop a)]
  rw [h2]

theorem strip_highlight_segments (line : List Char) (spans : List (Nat × Nat))
    (last_end : Nat) (h : spans_chained line.length last_end spans = true) :
    strip_styling (highlight_segments line spans last_end) = line.drop last_end := by
  induction spans generalizing last_end with
  | nil => simp [highlight_segments, strip_styling]
  | cons se rest ih =>
    obtain ⟨s, e⟩ := se
    simp only [spans_chained, Bool.and_eq_true, Nat.ble_eq] at h
    obtain ⟨⟨⟨h1, h2⟩, h3⟩, h4⟩ := h
    simp only [highlight_segments, strip_styling, List.map_cons, List.flatten_cons]
    rw [show ((highlight_segments line rest e).map Prod.fst).flatten =
      strip_styling (highlight_segments line rest e) from rfl, ih e h4]
    rw [take_drop_append_drop line h2, take_drop_append_drop line h1]

/-- C8: the highlighting loop of format_line is content-preserving: under
the find_iter span guarantees, stripping the styling from the emitted
segments yields exactly the original line. -/
theorem c8_highlight_preserves_content (line : List Char) (spans : List (Nat × Nat))
    (h : spans_chained line.length 0 spans = true) :
    strip_styling (highlight_segments line spans 0) = line :=
  strip_highlight_segments line spans 0 h

/-- C8 witness: content preservation at the concrete line abcab with the
two non-overlapping occurrences of ab as match spans. -/
theorem c8_highlight_preserves_content_witness :
    spans_chained ("abcab".toList).length 0 [(0, 2), (3, 5)] = true ∧
      strip_styling (highlight_segments ("abcab".toList) [(0, 2), (3, 5)] 0) = "abcab".toList :=
  ⟨by decide, c8_highlight_preserves_content ("abcab".toList) [(0, 2), (3, 5)] (by decide)⟩

/-- The branch on content display in print_tree (src/main.rs): the content
block is printed when show_content is set, the entry's size is at most
max_file_size, and the sniffed type is textual; the file-not-displayed
notice is printed when show_content is set and the size exceeds
max_file_size; otherwise neither. -/
inductive ContentAction where
  | shown
  | notDisplayed
  | skipped
deriving DecidableEq

/-- The content decision of print_tree for one non-directory entry. -/
def content_action (show_content : Bool) (size max_file_size : Nat) (p : PathInfo) :
    ContentAction :=
  if show_content && Nat.ble size max_file_size && is_text_file p then ContentAction.shown
  else if show_content && Nat.blt max_file_size size then ContentAction.notDisplayed
  else ContentAction.skipped

/-- C9: the content-size cap is inclusive: a text file whose size equals
max_file_size is shown, and the file-not-displayed branch is taken only
when the size strictly exceeds max_file_size. -/
theorem c9_size_cap_inclusive (show_content : Bool) (size max_file_size : Nat)
    (p : PathInfo) :
    (size = max_file_size → is_text_file p = true →
        content_action true size max_file_size p = ContentAction.shown) ∧
      (content_action show_content size max_file_size p = ContentAction.notDisplayed →
        max_file_size < size) := by
  constructor
  · intro hs ht
    subst hs
    simp [content_action, ht, Nat.ble_eq]
  · intro h
    by_cases hlt : max_file_size < size
    · exact hlt
    · exfalso
      have hble : Nat.blt max_file_size size = false := by
        rw [← Bool.not_eq_true, Nat.blt_eq]
        exact hlt
      simp only [content_action, hble, Bool.and_false, Bool.false_eq_true, if_false] at h
      split at h
      · exact ContentAction.noConfusion h
      · exact ContentAction.noConfusion h

/-- C9 witness: a text file of size exactly equal to the cap is shown, and
at that input the not-displayed branch is indeed not taken. -/
theorem c9_size_cap_inclusive_witness :
    content_action true 100000 100000 pTxt = ContentAction.shown :=
  (c9_size_cap_inclusive true 100000 100000 pTxt).1 rfl (by decide)

theorem mem_stable_insert {α : Type _} (le : α → α → Bool) (a x : α) (l : List α) :
    x ∈ stable_insert le a l ↔ x = a ∨ x ∈ l := by
  induction l with
  | nil => simp [stable_insert]
  | cons b m ih =>
    simp only [stable_insert]
    split
    · simp
    · simp only [List.mem_cons, ih]
      tauto

theorem mem_stable_sort {α : Type _} (le : α → α → Bool) (x : α) (l : List α) :
    x ∈ stable_sort le l ↔ x ∈ l := by
  induction l with
  | nil => simp [stable_sort]
  | cons a m ih => simp [stable_sort, mem_stable_insert, ih]

theorem mem_sort_entries_with {α : Type _} (key : α → DirEntryExt) (k : SortField)
    (dir : SortDirection) (df : Bool) (l : List α) (x : α) :
    x ∈ sort_entries_with key k dir df l ↔ x ∈ l := by
  unfold sort_entries_with
  cases dir
  · simp [mem_stable_sort]
  · simp [mem_stable_sort]

/-- A filesystem subtree: what the filesystem reports about the path of
each node, plus the children read_dir would yield there (a non-directory
node has no children). -/
inductive FsTree where
  | node (info : PathInfo) (children : List FsTree)

/-- The path information at the root of a subtree. -/
def FsTree.info : FsTree → PathInfo
  | FsTree.node i _ => i

/-- The directory listing at the root of a subtree. -/
def FsTree.children : FsTree → List FsTree
  | FsTree.node _ cs => cs

/-- The fields of Config (src/main.rs) consulted by print_tree's
traversal. -/
structure Config where
  max_depth : Nat
  exclude_dirs : List String
  file_types : List String
  sort_by : SortField
  sort_direction : SortDirection
  sort_dirs_first : Bool
  groups : List (String × List String)

/-- The DirEntryExt record print_tree builds for one surviving child:
directories get size 0, and filetype_desc is file_type_description, the
sniffed MIME with the octet-stream default. -/
def mk_entry (p : PathInfo) (md : Metadata) : DirEntryExt :=
  { name := p.name
    is_dir := md.is_dir
    size := if !md.is_dir then md.len else 0
    modified := md.modified
    ext := p.ext
    filetype_desc := p.sniff.getD "application/octet-stream" }

/-- The child-collection loop of print_tree: skip children whose name is
excluded, drop children whose metadata read fails, drop children the type
filter rejects, and pair each surviving record with its subtree. -/
def scan_children (cfg : Config) (cs : List FsTree) : List (DirEntryExt × FsTree) :=
  cs.filterMap (fun c =>
    if cfg.exclude_dirs.contains c.info.name then none
    else
      match c.info.metadata with
      | none => none
      | some md =>
        if matches_type_filter c.info cfg.file_types md.is_dir cfg.groups then
          some (mk_entry c.info md, c)
        else none)

theorem scan_children_subtree (cfg : Config) (cs : List FsTree) (x : DirEntryExt × FsTree)
    (h : x ∈ scan_children cfg cs) : x.2 ∈ cs := by
  simp only [scan_children, List.mem_filterMap] at h
  obtain ⟨c, hc, hf⟩ := h
  by_cases hex : cfg.exclude_dirs.contains c.info.name = true
  · rw [if_pos hex] at hf
    exact absurd hf (by simp)
  · rw [if_neg hex] at hf
    cases hmd : c.info.metadata with
    | none =>
      rw [hmd] at hf
      exact absurd hf (by simp)
    | some md =>
      rw [hmd] at hf
      dsimp only at hf
      by_cases hft : matches_type_filter c.info cfg.file_types md.is_dir cfg.groups = true
      · rw [if_pos hft] at hf
        cases hf
        exact hc
      · rw [if_neg hft] at hf
        exact absurd hf (by simp)

theorem sizeOf_lt_of_mem_scan_children (cfg : Config) (t : FsTree)
    (a : DirEntryExt × FsTree) (h : a ∈ scan_children cfg t.children) :
    sizeOf a.2 < sizeOf t := by
  have h2 := List.sizeOf_lt_of_mem (scan_children_subtree cfg t.children a h)
  cases t with
  | node i cs =>
    simp only [FsTree.children] at h2
    simp only [FsTree.node.sizeOf_spec]
    omega

/-- print_tree from src/main.rs, as the list of (entry record, depth)
pairs it prints, depth-first: return nothing once the nonzero depth bound
is exceeded; otherwise collect, filter and sort the children (reading a
directory is modelled by FsTree.children), print each survivor at the
current depth, and recurse into each directory child with depth + 1. -/
def print_tree (cfg : Config) (t : FsTree) (current_depth : Nat) :
    List (DirEntryExt × Nat) :=
  if cfg.max_depth ≠ 0 ∧ current_depth > cfg.max_depth then []
  else
    (sort_entries_with Prod.fst cfg.sort_by cfg.sort_direction cfg.sort_dirs_first
        (scan_children cfg t.children)).attach.flatMap
      (fun ec =>
        (ec.1.1, current_depth) ::
          (if ec.1.1.is_dir then print_tree cfg ec.1.2 (current_depth + 1) else []))
termination_by sizeOf t
decreasing_by
  exact sizeOf_lt_of_mem_scan_children cfg t ec.1
    ((mem_sort_entries_with Prod.fst cfg.sort_by cfg.sort_direction cfg.sort_dirs_first
      (scan_children cfg t.children) ec.1).mp ec.2)

/-- Specification-side companion of print_tree for the depth-bound claim:
the same scan of surviving children, but with no depth bound at all, so
the whole remaining subtree is enumerated, each entry paired with the
depth at which the walker would print it. -/
def spec_subtree_entries (cfg : Config) (t : FsTree) (d : Nat) :
    List (DirEntryExt × Nat) :=
  (scan_children cfg t.children).attach.flatMap
    (fun ec =>
      (ec.1.1, d) ::
        (if ec.1.1.is_dir then spec_subtree_entries cfg ec.1.2 (d + 1) else []))
termination_by sizeOf t
decreasing_by
  exact sizeOf_lt_of_mem_scan_children cfg t ec.1 ec.2

theorem spec_subtree_entries_depth_le (cfg : Config) (t : FsTree) (d : Nat)
    (x : DirEntryExt × Nat) (h : x ∈ spec_subtree_entries cfg t d) : d ≤ x.2 := by
  rw [spec_subtree_entries] at h
  simp only [List.mem_flatMap, List.mem_attach, true_and, Subtype.exists, exists_prop,
    List.mem_cons] at h
  obtain ⟨a, ha, hx⟩ := h
  rcases hx with hx | hx
  · subst hx
    exact Nat.le_refl d
  · by_cases hd : a.1.is_dir = true
    · rw [if_pos hd] at hx
      have := spec_subtree_entries_depth_le cfg a.2 (d + 1) x hx
      omega
    · rw [if_neg hd] at hx
      exact absurd hx (by simp)
termination_by sizeOf t
decreasing_by
  exact sizeOf_lt_of_mem_scan_children cfg t a ha

theorem mem_print_tree_iff (cfg : Config) (t : FsTree) (d : Nat) (x : DirEntryExt × Nat) :
    x ∈ print_tree cfg t d ↔
      x ∈ spec_subtree_entries cfg t d ∧ (cfg.max_depth = 0 ∨ x.2 ≤ cfg.max_depth) := by
  by_cases hb : cfg.max_depth ≠ 0 ∧ d > cfg.max_depth
  · rw [print_tree, if_pos hb]
    simp only [List.not_mem_nil, false_iff, not_and]
    intro hs
    have hd := spec_subtree_entries_depth_le cfg t d x hs
    rintro (h0 | hle)
    · exact hb.1 h0
    · omega
  · have hD : cfg.max_depth = 0 ∨ d ≤ cfg.max_depth := by
      by_cases h0 : cfg.max_depth = 0
      · exact Or.inl h0
      · rcases Nat.lt_or_ge cfg.max_depth d with hlt | hge
        · exact absurd ⟨h0, hlt⟩ hb
        · exact Or.inr hge
    rw [print_tree, if_neg hb, spec_subtree_entries]
    simp only [List.mem_flatMap, List.mem_attach, true_and, Subtype.exists, exists_prop,
      List.mem_cons, mem_sort_entries_with]
    constructor
    · rintro ⟨a, ha, hx⟩
      rcases hx with hx | hx
      · subst hx
        refine ⟨⟨a, ha, Or.inl rfl⟩, ?_⟩
        rcases hD with h0 | hle
        · exact Or.inl h0
        · exact Or.inr hle
      · by_cases hdir : a.1.is_dir = true
        · rw [if_pos hdir] at hx
          rw [mem_print_tree_iff cfg a.2 (d + 1) x] at hx
          exact ⟨⟨a, ha, Or.inr (by rw [if_pos hdir]; exact hx.1)⟩, hx.2⟩
        · rw [if_neg hdir] at hx
          exact absurd hx (by simp)
    · rintro ⟨⟨a, ha, hx⟩, hDx⟩
      rcases hx with hx | hx
      · exact ⟨a, ha, Or.inl hx⟩
      · by_cases hdir : a.1.is_dir = true
        · rw [if_pos hdir] at hx
          refine ⟨a, ha, Or.inr ?_⟩
          rw [if_pos hdir]
          exact (mem_print_tree_iff cfg a.2 (d + 1) x).mpr ⟨hx, hDx⟩
        · rw [if_neg hdir] at hx
          exact absurd hx (by simp)
termination_by sizeOf t
decreasing_by
  · exact sizeOf_lt_of_mem_scan_children cfg t a ha
  · exact sizeOf_lt_of_mem_scan_children cfg t a ha

/-- C6: starting at depth 1 for the root's immediate children, the walker
visits exactly the surviving entries whose depth is within the bound: an
entry-depth pair is printed by the depth-bounded walk precisely when the
unbounded enumeration of the whole tree contains it and either the bound
is 0 (no limit) or its depth is at most the bound. -/
theorem c6_depth_bound_visits (cfg : Config) (t : FsTree) (x : DirEntryExt × Nat) :
    x ∈ print_tree cfg t 1 ↔
      x ∈ spec_subtree_entries cfg t 1 ∧
        (cfg.max_depth = 0 ∨ x.2 ≤ cfg.max_depth) :=
  mem_print_tree_iff cfg t 1 x

end RS
